import Mathlib

/-!
# Verification of the DeepQuant backtest engine

Shallow embedding of `src/deepquant_backend` (policy_parser.py, backtest.py,
yfinance_op.py, main.py, schemas.py) together with proofs about the claims of
the specification.  Python floats are modelled by `ℚ` (with explicit
`Except`-style errors wherever CPython would raise `ZeroDivisionError`), and
the two summary statistics that genuinely need transcendental functions
(`sharpe`, `cagr_pct`) are modelled over `ℝ`.  Strings are processed as
`List Char`; the concrete regular expressions of `policy_parser.py` are
transcribed as direct character scanners with the same matching semantics.
-/

namespace DeepQuant

/-! ## Character classes (ASCII, as used by the `re` patterns on these prompts) -/

def isUpperA (c : Char) : Bool := 'A' ≤ c && c ≤ 'Z'

def isLowerA (c : Char) : Bool := 'a' ≤ c && c ≤ 'z'

def isDigitA (c : Char) : Bool := '0' ≤ c && c ≤ '9'

/-- Word characters `\w` (ASCII fragment). -/
def isWordA (c : Char) : Bool := isUpperA c || isLowerA c || isDigitA c || c = '_'

/-- Whitespace characters `\s` (ASCII fragment). -/
def isSpaceA (c : Char) : Bool :=
  c = ' ' || c = '\t' || c = '\n' || c = '\r' || c = '\x0b' || c = '\x0c'

def digitsToNat (ds : List Char) : ℕ :=
  ds.foldl (fun a c => a * 10 + (c.toNat - '0'.toNat)) 0

/-! ## `_extract_ticker`: `re.search(r"\b([A-Z]{1,5})\b", prompt)`

At a word boundary, `[A-Z]{1,5}` with a trailing `\b` can only match a whole
maximal uppercase run of length 1..5 (any shorter greedy attempt is followed by
an uppercase letter, which is a word character, so the trailing `\b` fails).
`re.search` returns the leftmost such run. -/

/-- Try to match `([A-Z]{1,5})\b` at the head of `cs` (the leading `\b` is
checked by the caller). -/
def tryUpperRun (cs : List Char) : Option (List Char) :=
  let run := cs.takeWhile isUpperA
  if run.length = 0 || 5 < run.length then none
  else
    match cs.drop run.length with
    | [] => some run
    | d :: _ => if isWordA d then none else some run

/-- Leftmost search; `prevWord` records whether the previous character is a
word character (for the leading `\b`). -/
def tickerSearch (prevWord : Bool) : List Char → Option (List Char)
  | [] => none
  | c :: rest =>
    match if prevWord then none else tryUpperRun (c :: rest) with
    | some t => some t
    | none => tickerSearch (isWordA c) rest

def extractTicker (cs : List Char) : Option (List Char) :=
  tickerSearch false cs

/-! ## `_extract_dates`: `re.findall(r"(20\d{2}-\d{2}-\d{2})", prompt)` -/

/-- Does the 10-character date pattern match at the head of `cs`? -/
def dateAt (cs : List Char) : Bool :=
  match cs with
  | '2' :: '0' :: a :: b :: '-' :: c :: d :: '-' :: e :: f :: _ =>
    isDigitA a && isDigitA b && isDigitA c && isDigitA d && isDigitA e && isDigitA f
  | _ => false

/-- Non-overlapping left-to-right matches, as `re.findall`; `skip` counts
characters still to be skipped because they belong to the previous match
(structural recursion on the text). -/
def findallDatesGo : List Char → ℕ → List (List Char)
  | [], _ => []
  | _ :: rest, skip + 1 => findallDatesGo rest skip
  | c :: rest, 0 =>
    if dateAt (c :: rest) then (c :: rest).take 10 :: findallDatesGo rest 9
    else findallDatesGo rest 0

def findallDates (cs : List Char) : List (List Char) :=
  findallDatesGo cs 0

def extractDates (cs : List Char) : Option String × Option String :=
  match findallDates cs with
  | m₀ :: m₁ :: _ => (some (String.mk m₀), some (String.mk m₁))
  | [m₀] => (some (String.mk m₀), none)
  | [] => (none, none)

/-! ## `_extract_windows`: `re.findall(r"sma\s*(\d+)", text) or re.findall(r"ma\s*(\d+)", text)` -/

/-- Match `key` + `\s*` + `(\d+)` at the head of `cs`; returns the captured
number and the total number of characters consumed by the match. -/
def keyNumAt (key : List Char) (cs : List Char) : Option (ℕ × ℕ) :=
  if key.isPrefixOf cs then
    let after := cs.drop key.length
    let ws := after.takeWhile isSpaceA
    let afterWs := after.drop ws.length
    let ds := afterWs.takeWhile isDigitA
    if ds.isEmpty then none
    else some (digitsToNat ds, key.length + ws.length + ds.length)
  else none

/-- Embeds `re.findall` for the `key\s*(\d+)` patterns: non-overlapping scan, each
match consumes its whole matched text; `skip` counts characters still to be
skipped because they belong to the previous match (the digit run of a match is
non-empty, so `consumed ≥ 1`). -/
def findallKeyNumGo (key : List Char) : List Char → ℕ → List ℕ
  | [], _ => []
  | _ :: rest, skip + 1 => findallKeyNumGo key rest skip
  | c :: rest, 0 =>
    match keyNumAt key (c :: rest) with
    | some (v, consumed) => v :: findallKeyNumGo key rest (consumed - 1)
    | none => findallKeyNumGo key rest 0

def findallKeyNum (key : List Char) (cs : List Char) : List ℕ :=
  findallKeyNumGo key cs 0

/-- Embeds `findall(sma...) or findall(ma...)`: Python `or` on lists takes the first
non-empty one. -/
def maMatchesText (text : List Char) : List ℕ :=
  let s := findallKeyNum ['s', 'm', 'a'] text
  if s.isEmpty then findallKeyNum ['m', 'a'] text else s

/-- Lines 52-62 of policy_parser.py, on the already-extracted match list:
`short = matches[0]`; `long = matches[1]` when two or more matches exist,
`long = max(short*2, 50)` when there is one match and `short < 50`, and the
default `50` otherwise. -/
def extractWindowsList : List ℕ → ℕ × ℕ
  | [] => (20, 50)
  | [n] => (n, if n < 50 then max (n * 2) 50 else 50)
  | n :: m :: _ => (n, m)

def extractWindows (text : List Char) : ℕ × ℕ :=
  extractWindowsList (maMatchesText text)

/-! ## `_extract_cash`: `re.search(r"(\d+[.,]?\d*)\s*(usd|cash|dollars)", text)`

Because the alternation `usd|cash|dollars` begins with a letter, the greedy
`\d+ [.,]? \d*` parts can never usefully give characters back (any shorter
digit split ends at the same overall position or puts a digit/separator where
the keyword must start), so the match at a given position is deterministic:
maximal digit run, one optional separator when present, maximal second digit
run, maximal whitespace run, then the keyword alternation tried in order. -/

/-- Embeds `float(group.replace(",", ""))`: a `,` separator is stripped (digits are
concatenated), a `.` separator makes a decimal fraction. -/
def cashValue (d₁ : List Char) (sep : Option Char) (d₂ : List Char) : ℚ :=
  match sep with
  | some '.' => digitsToNat d₁ + (digitsToNat d₂ : ℚ) / ((10 : ℚ) ^ d₂.length)
  | some _ => digitsToNat (d₁ ++ d₂)
  | none => digitsToNat d₁

/-- Try the whole cash pattern at the head of `cs`. -/
def cashAt (cs : List Char) : Option ℚ :=
  let d₁ := cs.takeWhile isDigitA
  if d₁.isEmpty then none
  else
    let r₁ := cs.drop d₁.length
    let (sep, r₂) :=
      match r₁ with
      | '.' :: t => (some '.', t)
      | ',' :: t => (some ',', t)
      | _ => ((none : Option Char), r₁)
    let d₂ := r₂.takeWhile isDigitA
    let r₃ := r₂.drop d₂.length
    let rest := r₃.drop ((r₃.takeWhile isSpaceA).length)
    if ['u', 's', 'd'].isPrefixOf rest || ['c', 'a', 's', 'h'].isPrefixOf rest
        || ['d', 'o', 'l', 'l', 'a', 'r', 's'].isPrefixOf rest then
      some (cashValue d₁ sep d₂)
    else none

/-- Embeds `re.search`: first position at which the pattern matches. -/
def cashSearch : List Char → Option ℚ
  | [] => none
  | c :: rest =>
    match cashAt (c :: rest) with
    | some v => some v
    | none => cashSearch rest

def extractCash (text : List Char) : ℚ :=
  (cashSearch text).getD 10000

/-! ## Schemas (schemas.py) and the parser entry point -/

structure StrategyConfig where
  ticker : String
  start_date : String
  end_date : String
  short_window : ℕ
  long_window : ℕ
  initial_cash : ℚ
deriving DecidableEq, Repr

structure ParsedPolicy where
  strategy : StrategyConfig
  prompt : String
  name : String
deriving DecidableEq, Repr

namespace LangChainPolicyParser

def DEFAULT_NAME : String := "Quant Policy"

/-- Embeds `LangChainPolicyParser.parse` (policy_parser.py lines 23-40). -/
def parse (prompt : String) (name : Option String) : ParsedPolicy :=
  let text := prompt.toList.map Char.toLower
  let ticker := extractTicker prompt.toList
  let dates := extractDates prompt.toList
  let windows := extractWindows text
  let cash := extractCash text
  { strategy :=
      { ticker := (ticker.map String.mk).getD "AAPL"
        start_date := dates.1.getD "2020-01-01"
        end_date := dates.2.getD "2024-01-01"
        short_window := windows.1
        long_window := windows.2
        initial_cash := cash }
    prompt := prompt
    name := name.getD DEFAULT_NAME }

end LangChainPolicyParser

/-! ## Summary statistics (backtest.py `_summarize`, `_daily_returns`)

Equities are `ℚ`; a Python float division is `divE`, which raises
(`Except.error`) exactly when its divisor is zero, as CPython does.  `sharpe`
and `cagr_pct` involve `sqrt` and a real exponent and are modelled over `ℝ`;
their NaN propagation on degenerate inputs (empty return series) is outside the
model, and no claim depends on them. -/

structure EquityPoint where
  date : String
  equity : ℚ
deriving DecidableEq, Repr

/-- Python float division: raises `ZeroDivisionError` on a zero divisor. -/
def divE (a b : ℚ) : Except String ℚ :=
  if b = 0 then .error "ZeroDivisionError: float division by zero" else .ok (a / b)

/-- Embeds `_daily_returns` (backtest.py lines 147-153): a pair whose predecessor is
`0` is skipped before any division is attempted. -/
def dailyReturnsE : List ℚ → Except String (List ℚ)
  | [] => .ok []
  | [_] => .ok []
  | a :: b :: rest =>
    if a = 0 then dailyReturnsE (b :: rest)
    else
      match divE (b - a) a with
      | .error e => .error e
      | .ok r =>
        match dailyReturnsE (b :: rest) with
        | .error e => .error e
        | .ok tail => .ok (r :: tail)

/-- The running-peak drawdown loop (backtest.py lines 123-128): update the
peak, then divide the decline by the peak, then update the running maximum. -/
def maxDrawdownLoop : List ℚ → ℚ → ℚ → Except String ℚ
  | [], _, maxDd => .ok maxDd
  | v :: rest, peak, maxDd =>
    match divE (max peak v - v) (max peak v) with
    | .error e => .error e
    | .ok dd => maxDrawdownLoop rest (max peak v) (max maxDd dd)

/-- Python `round(x, n)` (CPython breaks exact half-way ties to even; `round`
here breaks them upward — no value handled by the theorems below sits on a
tie). -/
def pyRound (n : ℕ) (x : ℚ) : ℚ :=
  ((round (x * 10 ^ n) : ℤ) : ℚ) / 10 ^ n

noncomputable def pyRoundR (n : ℕ) (x : ℝ) : ℝ :=
  ((round (x * 10 ^ n) : ℤ) : ℝ) / 10 ^ n

/-- Embeds `pd.Series(l).mean()`. -/
noncomputable def seriesMean (l : List ℚ) : ℝ :=
  (l.map (fun x => (x : ℝ))).sum / l.length

/-- Embeds `pd.Series(l).std()` (pandas default `ddof=1`). -/
noncomputable def seriesStd (l : List ℚ) : ℝ :=
  Real.sqrt ((l.map (fun x => ((x : ℝ) - seriesMean l) ^ 2)).sum / ((l.length : ℝ) - 1))

/-- The summary dict (backtest.py lines 138-145); the empty-curve early return
produces only the four zeroed statistics, so `start_equity`/`end_equity` are
optional. -/
structure Summary where
  total_return_pct : ℚ
  cagr_pct : ℝ
  max_drawdown_pct : ℚ
  sharpe : ℝ
  start_equity : Option ℚ
  end_equity : Option ℚ

/-- Embeds `_summarize` (backtest.py lines 109-145). -/
noncomputable def summarize (curve : List EquityPoint) : Except String Summary :=
  match curve with
  | [] =>
    .ok { total_return_pct := 0, cagr_pct := 0, max_drawdown_pct := 0, sharpe := 0,
          start_equity := none, end_equity := none }
  | pt₀ :: rest =>
    let startEquity := pt₀.equity
    let endEquity := ((pt₀ :: rest).getLast (by simp)).equity
    match divE (endEquity - startEquity) startEquity with
    | .error e => .error e
    | .ok totalReturn =>
      let values := (pt₀ :: rest).map EquityPoint.equity
      match maxDrawdownLoop values startEquity 0 with
      | .error e => .error e
      | .ok maxDd =>
        match dailyReturnsE values with
        | .error e => .error e
        | .ok dailyRets =>
          let sharpe : ℝ :=
            seriesMean dailyRets / (seriesStd dailyRets + 1 / 1000000000) * Real.sqrt 252
          let years : ℚ := max (((pt₀ :: rest).length : ℚ) / 252) (1 / 100000)
          let cagr : ℝ :=
            Real.rpow ((endEquity : ℝ) / (startEquity : ℝ)) (1 / (years : ℝ)) - 1
          .ok { total_return_pct := pyRound 2 (totalReturn * 100)
                cagr_pct := pyRoundR 2 (cagr * 100)
                max_drawdown_pct := pyRound 2 (maxDd * 100)
                sharpe := pyRoundR 2 sharpe
                start_equity := some startEquity
                end_equity := some endEquity }

/-! ## The simulation (backtest.py `_simulate`) -/

structure PriceBar where
  date : String
  close : ℚ
deriving DecidableEq, Repr

structure SigBar where
  date : String
  close : ℚ
  signal : ℤ
deriving DecidableEq, Repr

/-- A `(progress, message)` pair passed to the progress callback. -/
abbrev Event : Type := ℚ × String

structure SimState where
  cash : ℚ
  position : ℚ
  lastSignal : ℤ
  curve : List EquityPoint
  events : List Event
deriving DecidableEq, Repr

/-- The `if signal != last_signal:` trade block of `_simulate` (backtest.py
lines 83-90): enter fully when the new signal is `+1` while flat, liquidate
fully when it is `-1` while invested, and record the signal either way.  The
division `cash / price` raises in Python when `price = 0`; the theorems below
only use the step on bars with positive closes, where `ℚ` division agrees
with CPython. -/
def tradeStep (st : SimState) (price : ℚ) (signal : ℤ) : SimState :=
  if signal ≠ st.lastSignal then
    if signal = 1 ∧ st.position = 0 then
      { st with cash := 0, position := st.cash / price, lastSignal := signal }
    else if signal = -1 ∧ 0 < st.position then
      { st with cash := st.position * price, position := 0, lastSignal := signal }
    else { st with lastSignal := signal }
  else st

/-- Embeds `min(0.6 + 0.3 * (len(equity_curve) / len(data)), 0.9)`. -/
def simPct (m c : ℕ) : ℚ :=
  min (6/10 + 3/10 * ((c : ℚ) / (m : ℚ))) (9/10)

/-- One iteration of the `for _, row in data.iterrows()` loop of `_simulate`
(backtest.py lines 65-98); `m` is `len(data)`. -/
def stepSim (m : ℕ) (st : SimState) (bar : SigBar) : SimState :=
  let traded := tradeStep st bar.close bar.signal
  let equity := traded.cash + traded.position * bar.close
  let curve' := traded.curve ++ [{ date := bar.date, equity := equity }]
  let events' :=
    if curve'.length % 25 = 0 then
      traded.events ++ [(simPct m curve'.length, "Simulating " ++ bar.date)]
    else traded.events
  { traded with curve := curve', events := events' }

def initState (strategy : StrategyConfig) : SimState :=
  { cash := strategy.initial_cash, position := 0, lastSignal := 0, curve := [], events := [] }

def simulateLoop (bars : List SigBar) (strategy : StrategyConfig) : SimState :=
  bars.foldl (stepSim bars.length) (initState strategy)

/-- Embeds `equity_curve[-1]["equity"] = cash`. -/
def setLastEquity (curve : List EquityPoint) (v : ℚ) : List EquityPoint :=
  match curve.getLast? with
  | none => curve
  | some pt => curve.dropLast ++ [{ pt with equity := v }]

/-- Embeds `_simulate` (backtest.py lines 57-107): the bar loop followed by the final
liquidation overwrite.  (`position > 0` forces at least one processed bar, so
the curve and the data are non-empty exactly where `data.iloc[-1]` and
`equity_curve[-1]` rely on it.) -/
def simulate (bars : List SigBar) (strategy : StrategyConfig) :
    List EquityPoint × List Event :=
  let st := simulateLoop bars strategy
  match bars.getLast? with
  | none => (st.curve, st.events)
  | some lastBar =>
    if 0 < st.position then (setLastEquity st.curve (st.position * lastBar.close), st.events)
    else (st.curve, st.events)

/-! ## Indicators (backtest.py `_apply_indicators`) -/

/-- Embeds `Series.rolling(w).mean()` at index `i`: defined once `i + 1 ≥ w ≥ 1`,
NaN (`none`) before the window is full. -/
def rollingMean (w : ℕ) (closes : List ℚ) (i : ℕ) : Option ℚ :=
  if w = 0 ∨ i + 1 < w then none
  else some (((closes.drop (i + 1 - w)).take w).sum / (w : ℚ))

/-- Embeds `_apply_indicators` (backtest.py lines 47-55): the two moving averages, the
`+1 / -1 / 0` signal, and the `dropna()` which removes the warm-up rows whose
moving averages are undefined. -/
def applyIndicators (data : List PriceBar) (shortW longW : ℕ) : List SigBar :=
  let closes := data.map PriceBar.close
  data.enum.filterMap fun p =>
    match rollingMean shortW closes p.1, rollingMean longW closes p.1 with
    | some smaShort, some smaLong =>
      some { date := p.2.date, close := p.2.close,
             signal := if smaLong < smaShort then 1 else if smaShort < smaLong then -1 else 0 }
    | _, _ => none

/-! ## Market data source (yfinance_op.py) -/

/-- Outcome of the `yf.download(...)` call (an empty frame is `.ok []`). -/
inductive DownloadResult where
  | ok (data : List PriceBar)
  | exn (msg : String)
deriving DecidableEq, Repr

/-- The random walk of `_sample_data` (yfinance_op.py lines 82-92); the
`random.uniform(-0.5, 0.7)` draws are an input stream `drifts`. -/
def sampleWalk : ℚ → List ℚ → List ℚ
  | _, [] => []
  | price, drift :: rest =>
    let price' := max 5 (price + drift)
    price' :: sampleWalk price' rest

/-- Embeds `_sample_data`: the synthetic frame plus the progress event it emits. -/
def sampleData (dates : List String) (drifts : List ℚ) (reason : String) :
    List PriceBar × List Event :=
  (List.zipWith (fun d p => { date := d, close := p }) dates (sampleWalk 100 drifts),
   [(1/5, "Using sample data (" ++ reason ++ ")")])

/-- Embeds `YFinanceOp.fetch` (yfinance_op.py lines 47-80): `allowFallback` is
`self.use_sample or os.getenv("ALLOW_SAMPLE_FALLBACK", "1") == "1"`. -/
def fetch (allowFallback : Bool) (ticker : String) (dl : DownloadResult)
    (sampleDates : List String) (drifts : List ℚ) :
    Except String (List PriceBar × List Event) :=
  match dl with
  | .exn msg =>
    if allowFallback then .ok (sampleData sampleDates drifts msg)
    else .error ("Failed to download data for " ++ ticker ++ ": " ++ msg)
  | .ok data =>
    if data.isEmpty then
      if allowFallback then .ok (sampleData sampleDates drifts "empty response")
      else
        .error ("No data returned for " ++ ticker ++
          ". Check ticker spelling, date range, or network connectivity.")
    else .ok (data, [])

/-! ## The runner (backtest.py `BacktestRunner.run`) -/

structure BacktestResult where
  policy_id : Option String
  summary : Summary
  equity_curve : List EquityPoint

/-- Embeds `BacktestRunner.run` (backtest.py lines 19-41), with the outcome of the
data fetch passed in.  Returns the ordered list of `(progress, message)` pairs
handed to the progress callback during the invocation, and either the result
or the message of the exception that aborted the run. -/
noncomputable def BacktestRunner.run
    (fetched : Except String (List PriceBar × List Event))
    (strategy : StrategyConfig) (policyId : Option String) :
    List Event × Except String BacktestResult :=
  match fetched with
  | .error msg => ([(1/10, "Parsing strategy")], .error msg)
  | .ok (data, fetchEvents) =>
    let bars := applyIndicators data strategy.short_window strategy.long_window
    let (curve, simEvents) := simulate bars strategy
    let stem := (1/10, "Parsing strategy") :: fetchEvents ++
      (4/10, "Calculating indicators") :: (6/10, "Simulating trades") :: simEvents ++
      [(9/10, "Calculating summary statistics")]
    match summarize curve with
    | .error msg => (stem, .error msg)
    | .ok summ =>
      (stem ++ [(1, "Completed")],
       .ok { policy_id := policyId, summary := summ, equity_curve := curve })

/-! ## Job registry and HTTP-facing operations (main.py) -/

structure BacktestStatus where
  job_id : String
  status : String
  progress : ℚ
  message : String
  result : Option BacktestResult

/-- The mutex-guarded dict of `JobRegistry`, as a map. -/
abbrev JobRegistry : Type := String → Option BacktestStatus

/-- Embeds `JobRegistry.create` (main.py lines 36-42): builds the pending entry and
stores it with a plain dict assignment `self.jobs[job_id] = status`. -/
def registryCreate (jobs : JobRegistry) (jobId : String) :
    BacktestStatus × JobRegistry :=
  let status : BacktestStatus :=
    { job_id := jobId, status := "pending", progress := 0, message := "Queued", result := none }
  (status, fun j => if j = jobId then some status else jobs j)

/-- Embeds `JobRegistry.update` (main.py lines 44-46). -/
def registryUpdate (jobs : JobRegistry) (jobId : String) (status : BacktestStatus) :
    JobRegistry :=
  fun j => if j = jobId then some status else jobs j

/-- Embeds `JobRegistry.get` (main.py lines 48-53); the error is the `KeyError`. -/
def registryGet (jobs : JobRegistry) (jobId : String) : Except String BacktestStatus :=
  match jobs jobId with
  | none => .error jobId
  | some st => .ok st

structure BacktestRequest where
  prompt : Option String
  policy_id : Option String
  name : Option String
deriving DecidableEq, Repr

/-- Python truthiness of an optional string (`None` and `""` are falsy). -/
def strTruthy : Option String → Bool
  | none => false
  | some s => !s.isEmpty

/-- Embeds `start_backtest` (main.py lines 79-89).  Returns the HTTP response (the
`400` error or the fresh pending status), the registry after the call, and the
background tasks scheduled by the call. -/
def start_backtest (payload : BacktestRequest) (registry : JobRegistry) (jobId : String) :
    Except (ℕ × String) BacktestStatus × JobRegistry × List (String × BacktestRequest) :=
  if !strTruthy payload.prompt && !strTruthy payload.policy_id then
    (.error (400, "Provide either a prompt or an existing policy_id"), registry, [])
  else
    let created := registryCreate registry jobId
    (.ok created.1, created.2, [(jobId, payload)])

/-! ## Policy store (store.py) and the background job (main.py) -/

structure Policy where
  id : String
  prompt : String
  name : String
  strategy : StrategyConfig
deriving DecidableEq, Repr

/-- The TinyDB collection: append-only, `get` returns the first match. -/
abbrev PolicyStore : Type := List Policy

/-- Embeds `PolicyStore.add_policy` (store.py lines 14-24). -/
def addPolicy (store : PolicyStore) (policyId prompt : String)
    (strategy : StrategyConfig) (name : String) : Policy × PolicyStore :=
  let record : Policy := { id := policyId, prompt := prompt, name := name, strategy := strategy }
  (record, store ++ [record])

/-- Embeds `PolicyStore.get_policy` (store.py lines 26-32). -/
def getPolicy (store : PolicyStore) (policyId : String) : Option Policy :=
  store.find? fun p => p.id = policyId

/-- The policy-resolution prefix of `run_backtest_job` (main.py lines 102-117):
the parsed policy, the policy id attached to the result, and the store after
the call — or the message of the `ValueError` raised. -/
def resolvePolicy (payload : BacktestRequest) (store : PolicyStore)
    (freshPolicyId : String) :
    Except String (ParsedPolicy × Option String × PolicyStore) :=
  if strTruthy payload.prompt then
    let parsed := LangChainPolicyParser.parse (payload.prompt.getD "") payload.name
    .ok (parsed, some freshPolicyId,
      (addPolicy store freshPolicyId (payload.prompt.getD "") parsed.strategy parsed.name).2)
  else if strTruthy payload.policy_id then
    match getPolicy store (payload.policy_id.getD "") with
    | none => .error "Policy not found"
    | some policy =>
      .ok (LangChainPolicyParser.parse policy.prompt (some policy.name), some policy.id, store)
  else .error "No policy provided"

/-- Embeds `run_backtest_job` (main.py lines 100-152): the sequence of statuses
written to the registry for `jobId`, in order — the `running` updates of the
progress callback (with `round(progress, 3)`) followed by the terminal
`completed` or `failed` update.  The surrounding `try/except Exception` makes
the job total: every exception becomes a terminal `failed` status. -/
noncomputable def run_backtest_job (payload : BacktestRequest) (store : PolicyStore)
    (jobId freshPolicyId : String) (allowFallback : Bool) (dl : DownloadResult)
    (sampleDates : List String) (drifts : List ℚ) : List BacktestStatus :=
  match resolvePolicy payload store freshPolicyId with
  | .error msg =>
    [{ job_id := jobId, status := "failed", progress := 1, message := msg, result := none }]
  | .ok (parsed, policyId, _) =>
    let fetched := fetch allowFallback parsed.strategy.ticker dl sampleDates drifts
    let ran := BacktestRunner.run fetched parsed.strategy policyId
    let running := ran.1.map fun e =>
      ({ job_id := jobId, status := "running", progress := pyRound 3 e.1, message := e.2,
         result := none } : BacktestStatus)
    match ran.2 with
    | .ok result =>
      running ++
        [{ job_id := jobId, status := "completed", progress := 1, message := "Done",
           result := some result }]
    | .error msg =>
      running ++
        [{ job_id := jobId, status := "failed", progress := 1, message := msg, result := none }]

/-! ## Helper lemmas -/

/-- The `if values[i-1] == 0: continue` guard makes `_daily_returns` total:
every division it performs has a non-zero divisor. -/
theorem dailyReturnsE_isOk (values : List ℚ) :
    ∃ rs, dailyReturnsE values = Except.ok rs := by
  induction values with
  | nil => exact ⟨[], rfl⟩
  | cons a tail ih =>
    cases tail with
    | nil => exact ⟨[], rfl⟩
    | cons b rest =>
      obtain ⟨rs, hrs⟩ := ih
      by_cases ha : a = 0
      · exact ⟨rs, by simp [dailyReturnsE, ha, hrs]⟩
      · refine ⟨(b - a) / a :: rs, ?_⟩
        simp [dailyReturnsE, if_neg ha, divE, hrs]

/-- The drawdown loop succeeds and stays in `[0, 1]` whenever the incoming
peak is positive and the values are non-negative. -/
theorem maxDrawdownLoop_ok (values : List ℚ) :
    ∀ peak maxDd : ℚ, 0 < peak → 0 ≤ maxDd → maxDd ≤ 1 → (∀ v ∈ values, 0 ≤ v) →
      ∃ d, maxDrawdownLoop values peak maxDd = Except.ok d ∧ 0 ≤ d ∧ d ≤ 1 := by
  induction values with
  | nil => exact fun peak maxDd _ h0 h1 _ => ⟨maxDd, rfl, h0, h1⟩
  | cons v rest ih =>
    intro peak maxDd hpeak h0 h1 hv
    have hpeak' : 0 < max peak v := lt_of_lt_of_le hpeak (le_max_left _ _)
    have hv0 : 0 ≤ v := hv v (List.mem_cons_self _ _)
    have hdd0 : 0 ≤ (max peak v - v) / max peak v :=
      div_nonneg (by simp [le_max_right]) hpeak'.le
    have hdd1 : (max peak v - v) / max peak v ≤ 1 := by
      rw [div_le_one hpeak']; linarith
    obtain ⟨d, hd, hd0, hd1⟩ :=
      ih (max peak v) (max maxDd ((max peak v - v) / max peak v)) hpeak'
        (le_max_of_le_right hdd0) (max_le h1 hdd1)
        (fun w hw => hv w (List.mem_cons_of_mem _ hw))
    refine ⟨d, ?_, hd0, hd1⟩
    simp [maxDrawdownLoop, divE, if_neg hpeak'.ne', hd]

/-- Monotonicity of `round` on `ℚ`. -/
theorem roundQ_mono {a b : ℚ} (h : a ≤ b) : round a ≤ round b := by
  rw [round_eq, round_eq]
  exact Int.floor_le_floor (by linarith)

/-- Bounds: `round(x * 100, 2)` stays in `[0, 100]` for `x ∈ [0, 1]`. -/
theorem pyRound_pct_bounds {x : ℚ} (h0 : 0 ≤ x) (h1 : x ≤ 1) :
    0 ≤ pyRound 2 (x * 100) ∧ pyRound 2 (x * 100) ≤ 100 := by
  have hlo : (0 : ℤ) ≤ round (x * 100 * 10 ^ 2) := by
    have := roundQ_mono (show (0 : ℚ) ≤ x * 100 * 10 ^ 2 by positivity)
    simpa using this
  have hhi : round (x * 100 * 10 ^ 2) ≤ (10000 : ℤ) := by
    have hle : x * 100 * 10 ^ 2 ≤ ((10000 : ℤ) : ℚ) := by push_cast; nlinarith
    have := roundQ_mono hle
    simpa [round_intCast] using this
  constructor
  · exact div_nonneg (by exact_mod_cast hlo) (by norm_num)
  · rw [pyRound, div_le_iff₀ (by norm_num : (0:ℚ) < 10 ^ 2)]
    calc ((round (x * 100 * 10 ^ 2) : ℤ) : ℚ) ≤ ((10000 : ℤ) : ℚ) := by exact_mod_cast hhi
    _ = 100 * 10 ^ 2 := by norm_num

/-! ## Claims -/

/-- C10: the daily-returns computation is total for every input list of
equity values — the guard skips any pair whose predecessor is `0`, so the
(checked) division never hits a zero divisor and no error is produced. -/
theorem c10_daily_returns_total (values : List ℚ) :
    ∃ rs, dailyReturnsE values = Except.ok rs :=
  dailyReturnsE_isOk values

/-- C7: on an empty equity curve, `_summarize` returns the all-zero defaults
(`total_return_pct = 0`, `cagr_pct = 0`, `max_drawdown_pct = 0`, `sharpe = 0`)
and does not raise. -/
theorem c7_empty_summary :
    summarize [] = Except.ok
      { total_return_pct := 0, cagr_pct := 0, max_drawdown_pct := 0, sharpe := 0,
        start_equity := none, end_equity := none } :=
  rfl

/-- A registry that already holds a `running` entry for `"job-1"`. -/
def regWithJob1 : JobRegistry := fun j =>
  if j = "job-1" then
    some { job_id := "job-1", status := "running", progress := 1/2, message := "Halfway",
           result := none }
  else none

/-- C2, counterexample: `create` called with an id that already exists does
not fail — it overwrites the existing (`running`) entry with a fresh
`pending` one. -/
theorem c2_create_counterexample :
    (∃ st, regWithJob1 "job-1" = some st ∧ st.status = "running") ∧
    (registryCreate regWithJob1 "job-1").2 "job-1" =
      some { job_id := "job-1", status := "pending", progress := 0, message := "Queued",
             result := none } ∧
    ("running" : String) ≠ "pending" :=
  ⟨⟨_, rfl, rfl⟩, rfl, by decide⟩

/-- C2, amended: `JobRegistry.create(job_id)` always inserts (returning) a
fresh entry with status `pending` and progress `0.0`; if an entry with that
id already exists it is replaced — `create` never fails. -/
theorem c2_create_pending (jobs : JobRegistry) (jobId : String) :
    (registryCreate jobs jobId).1 =
      { job_id := jobId, status := "pending", progress := 0, message := "Queued",
        result := none } ∧
    (registryCreate jobs jobId).2 jobId = some ((registryCreate jobs jobId).1) :=
  ⟨rfl, by simp [registryCreate]⟩

/-- C5: a submission carrying neither a prompt nor a policy_id is rejected
with HTTP 400, the registry is returned unchanged (no job entry created), and
no background task is scheduled. -/
theorem c5_reject_before_create (payload : BacktestRequest) (registry : JobRegistry)
    (jobId : String) (hp : payload.prompt = none) (hpid : payload.policy_id = none) :
    start_backtest payload registry jobId =
      (Except.error (400, "Provide either a prompt or an existing policy_id"), registry, []) := by
  rcases payload with ⟨p, q, nm⟩
  simp only at hp hpid
  subst hp; subst hpid
  rfl

/-- C5 witness at a concrete empty payload. -/
theorem c5_reject_witness :
    ({ prompt := none, policy_id := none, name := none } : BacktestRequest).prompt = none ∧
    ({ prompt := none, policy_id := none, name := none } : BacktestRequest).policy_id = none ∧
    start_backtest { prompt := none, policy_id := none, name := none } (fun _ => none) "job-1" =
      (Except.error (400, "Provide either a prompt or an existing policy_id"),
        (fun _ => none), []) :=
  ⟨rfl, rfl, c5_reject_before_create _ _ _ rfl rfl⟩

/-- C1, counterexample: on `"sma 60"` the patterns find exactly one number,
`60`, but the parser keeps the default long window `50` instead of
`max(2*60, 50) = 120` (the doubling rule only fires when the number is
below 50). -/
theorem c1_windows_counterexample :
    maMatchesText ("sma 60".toList.map Char.toLower) = [60] ∧
    (LangChainPolicyParser.parse "sma 60" none).strategy.long_window ≠ max (2 * 60) 50 := by
  constructor
  · decide
  · decide

/-- C1, amended: when the window patterns find exactly one number `n`, parse
returns `short_window = n` and `long_window = max(2*n, 50)` **if `n < 50`**,
otherwise the default `long_window = 50`; with two or more numbers the first
two become short/long directly; with none the defaults `20`/`50` apply. -/
theorem c1_windows (prompt : String) (name : Option String) :
    (∀ n, maMatchesText (prompt.toList.map Char.toLower) = [n] →
      (LangChainPolicyParser.parse prompt name).strategy.short_window = n ∧
      (LangChainPolicyParser.parse prompt name).strategy.long_window =
        (if n < 50 then max (n * 2) 50 else 50)) ∧
    (∀ n m rest, maMatchesText (prompt.toList.map Char.toLower) = n :: m :: rest →
      (LangChainPolicyParser.parse prompt name).strategy.short_window = n ∧
      (LangChainPolicyParser.parse prompt name).strategy.long_window = m) ∧
    (maMatchesText (prompt.toList.map Char.toLower) = [] →
      (LangChainPolicyParser.parse prompt name).strategy.short_window = 20 ∧
      (LangChainPolicyParser.parse prompt name).strategy.long_window = 50) := by
  have hs : (LangChainPolicyParser.parse prompt name).strategy.short_window
      = (extractWindowsList (maMatchesText (prompt.toList.map Char.toLower))).1 := rfl
  have hl : (LangChainPolicyParser.parse prompt name).strategy.long_window
      = (extractWindowsList (maMatchesText (prompt.toList.map Char.toLower))).2 := rfl
  refine ⟨?_, ?_, ?_⟩
  · intro n h
    rw [hs, hl, h]
    exact ⟨rfl, rfl⟩
  · intro n m rest h
    rw [hs, hl, h]
    exact ⟨rfl, rfl⟩
  · intro h
    rw [hs, hl, h]
    exact ⟨rfl, rfl⟩

/-- C1 witness: the one-number case at the concrete prompt `"sma 10"`. -/
theorem c1_windows_witness :
    (LangChainPolicyParser.parse "sma 10" none).strategy.short_window = 10 ∧
    (LangChainPolicyParser.parse "sma 10" none).strategy.long_window = 50 := by
  have h := (c1_windows "sma 10" none).1 10 (by decide)
  exact ⟨h.1, by rw [h.2]; decide⟩

/-- C8: the worked example prompt parses to the expected strategy, and a
prompt with no recognizable fields parses to the all-defaults strategy. -/
theorem c8_parse_examples :
    (LangChainPolicyParser.parse
        "Backtest AAPL from 2020-01-01 to 2020-06-01 using SMA 10 and SMA 30 with 5000 cash"
        none).strategy =
      { ticker := "AAPL", start_date := "2020-01-01", end_date := "2020-06-01",
        short_window := 10, long_window := 30, initial_cash := 5000 } ∧
    (LangChainPolicyParser.parse "hello world" none).strategy =
      { ticker := "AAPL", start_date := "2020-01-01", end_date := "2024-01-01",
        short_window := 20, long_window := 50, initial_cash := 10000 } := by
  constructor
  · decide
  · decide

/-- Success shape of `_summarize` on a non-empty curve, given that the three
fallible sub-computations succeed. -/
theorem summarize_cons_ok (pt₀ : EquityPoint) (rest : List EquityPoint)
    (tr d : ℚ) (rs : List ℚ)
    (h1 : divE (((pt₀ :: rest).getLast (by simp)).equity - pt₀.equity) pt₀.equity
      = Except.ok tr)
    (h2 : maxDrawdownLoop ((pt₀ :: rest).map EquityPoint.equity) pt₀.equity 0
      = Except.ok d)
    (h3 : dailyReturnsE ((pt₀ :: rest).map EquityPoint.equity) = Except.ok rs) :
    summarize (pt₀ :: rest) = Except.ok
      { total_return_pct := pyRound 2 (tr * 100)
        cagr_pct := pyRoundR 2
          ((Real.rpow ((((pt₀ :: rest).getLast (by simp)).equity : ℝ) / (pt₀.equity : ℝ))
            (1 / ((max (((pt₀ :: rest).length : ℚ) / 252) (1 / 100000) : ℚ) : ℝ)) - 1) * 100)
        max_drawdown_pct := pyRound 2 (d * 100)
        sharpe := pyRoundR 2 (seriesMean rs / (seriesStd rs + 1 / 1000000000) * Real.sqrt 252)
        start_equity := some pt₀.equity
        end_equity := some ((pt₀ :: rest).getLast (by simp)).equity } := by
  simp only [summarize, h1, h2, h3]

/-- Projection of the drawdown statistic out of a summary outcome. -/
def summaryMaxDd : Except String Summary → Option ℚ
  | .ok s => some s.max_drawdown_pct
  | .error _ => none

/-- C6, counterexample: on the equity curve `[10, -5]` (negative equity, as a
negative `initial_cash` can produce) the computed `max_drawdown_pct` is `150`,
above the claimed upper bound `100`. -/
theorem c6_drawdown_counterexample :
    summaryMaxDd (summarize
      [{ date := "2020-01-01", equity := 10 }, { date := "2020-01-02", equity := -5 }])
      = some 150 ∧
    ¬ (150 : ℚ) ≤ 100 := by
  constructor
  · have h1 : divE ((-5 : ℚ) - 10) 10 = Except.ok (-3/2) := by norm_num [divE]
    have h2 : maxDrawdownLoop [(10 : ℚ), -5] 10 0 = Except.ok (3/2) := by
      norm_num [maxDrawdownLoop, divE, max_def]
    have h3 : dailyReturnsE [(10 : ℚ), -5] = Except.ok [-3/2] := by
      norm_num [dailyReturnsE, divE]
    rw [summarize_cons_ok { date := "2020-01-01", equity := 10 }
      [{ date := "2020-01-02", equity := -5 }] (-3/2) (3/2) [-3/2] h1 h2 h3]
    show some (pyRound 2 ((3/2) * 100)) = some 150
    rw [pyRound, round_eq]
    norm_num
  · norm_num

/-- On a curve of non-negative values with positive first value, the summary
succeeds and its drawdown statistic lies in `[0, 100]`. -/
theorem summarize_ok_bounds (curve : List EquityPoint)
    (hpos : ∀ pt ∈ curve, 0 ≤ pt.equity)
    (hhead : ∀ pt₀, curve.head? = some pt₀ → 0 < pt₀.equity) :
    ∃ s, summarize curve = Except.ok s ∧
      0 ≤ s.max_drawdown_pct ∧ s.max_drawdown_pct ≤ 100 := by
  cases curve with
  | nil => exact ⟨_, rfl, le_refl 0, by norm_num⟩
  | cons pt₀ rest =>
    have h0 : 0 < pt₀.equity := hhead pt₀ rfl
    have hvals : ∀ v ∈ (pt₀ :: rest).map EquityPoint.equity, 0 ≤ v := by
      intro v hv
      obtain ⟨pt, hpt, rfl⟩ := List.mem_map.mp hv
      exact hpos pt hpt
    obtain ⟨d, hd, hd0, hd1⟩ :=
      maxDrawdownLoop_ok ((pt₀ :: rest).map EquityPoint.equity) pt₀.equity 0 h0
        le_rfl zero_le_one hvals
    obtain ⟨rs, hrs⟩ := dailyReturnsE_isOk ((pt₀ :: rest).map EquityPoint.equity)
    have h1 : divE (((pt₀ :: rest).getLast (by simp)).equity - pt₀.equity) pt₀.equity
        = Except.ok ((((pt₀ :: rest).getLast (by simp)).equity - pt₀.equity) / pt₀.equity) := by
      simp [divE, h0.ne']
    refine ⟨_, summarize_cons_ok pt₀ rest _ d rs h1 hd hrs, ?_, ?_⟩
    · exact (pyRound_pct_bounds hd0 hd1).1
    · exact (pyRound_pct_bounds hd0 hd1).2

/-- C6, amended: for every equity curve whose values are non-negative and
whose first value is positive, the summary computation succeeds and its
`max_drawdown_pct` lies in `[0, 100]`. -/
theorem c6_drawdown_bounds (curve : List EquityPoint)
    (hpos : ∀ pt ∈ curve, 0 ≤ pt.equity)
    (hhead : ∀ pt₀, curve.head? = some pt₀ → 0 < pt₀.equity) :
    ∃ s, summarize curve = Except.ok s ∧
      0 ≤ s.max_drawdown_pct ∧ s.max_drawdown_pct ≤ 100 :=
  summarize_ok_bounds curve hpos hhead

/-- C6 witness at a concrete non-negative curve. -/
theorem c6_drawdown_bounds_witness :
    (∀ pt ∈ [({ date := "a", equity := 10 } : EquityPoint), { date := "b", equity := 5 }],
      0 ≤ pt.equity) ∧
    ∃ s, summarize [({ date := "a", equity := 10 } : EquityPoint), { date := "b", equity := 5 }]
        = Except.ok s ∧ 0 ≤ s.max_drawdown_pct ∧ s.max_drawdown_pct ≤ 100 :=
  ⟨by decide,
    c6_drawdown_bounds _ (by decide) (by intro pt₀ h; cases h; decide)⟩

/-- C4: for every job whose policy resolution succeeds, when the market-data
download raises with message `msg` and synthetic fallback is disallowed, the
job's final registry update is a `failed` status whose message contains `msg`
and whose result is absent; `run_backtest_job` returns this status list
normally (the exception never escapes the job boundary). -/
theorem c4_fetch_failure (payload : BacktestRequest) (store : PolicyStore)
    (jobId freshPolicyId msg : String) (sampleDates : List String) (drifts : List ℚ)
    (h : (resolvePolicy payload store freshPolicyId).isOk = true) :
    ∃ st, (run_backtest_job payload store jobId freshPolicyId false (.exn msg)
        sampleDates drifts).getLast? = some st ∧
      st.status = "failed" ∧ (∃ a b, st.message = a ++ msg ++ b) ∧ st.result = none := by
  obtain ⟨parsed, pid, store', hres⟩ :
      ∃ p q r, resolvePolicy payload store freshPolicyId = Except.ok (p, q, r) := by
    cases hr : resolvePolicy payload store freshPolicyId with
    | error e => rw [hr] at h; simp [Except.isOk, Except.toBool] at h
    | ok v => obtain ⟨p, q, r⟩ := v; exact ⟨p, q, r, rfl⟩
  refine ⟨{ job_id := jobId, status := "failed", progress := 1,
            message := ("Failed to download data for " ++ parsed.strategy.ticker ++ ": ")
              ++ msg,
            result := none }, ?_, rfl,
          ⟨"Failed to download data for " ++ parsed.strategy.ticker ++ ": ", "", ?_⟩, rfl⟩
  · simp only [run_backtest_job, hres, fetch]
    simp [BacktestRunner.run, List.getLast?_concat, String.append_assoc]
  · simp [String.append_empty]

/-- C4 witness at a concrete prompt payload and failing download. -/
theorem c4_fetch_failure_witness :
    (resolvePolicy { prompt := some "sma 10", policy_id := none, name := none } [] "p1").isOk
      = true ∧
    ∃ st, (run_backtest_job { prompt := some "sma 10", policy_id := none, name := none } []
        "job-1" "p1" false (.exn "boom") [] []).getLast? = some st ∧
      st.status = "failed" ∧ (∃ a b, st.message = a ++ "boom" ++ b) ∧ st.result = none :=
  ⟨rfl, c4_fetch_failure _ _ _ _ _ _ _ rfl⟩

/-! ## Simulation lemmas -/

theorem tradeStep_curve (st : SimState) (price : ℚ) (signal : ℤ) :
    (tradeStep st price signal).curve = st.curve := by
  unfold tradeStep; split_ifs <;> rfl

theorem tradeStep_events (st : SimState) (price : ℚ) (signal : ℤ) :
    (tradeStep st price signal).events = st.events := by
  unfold tradeStep; split_ifs <;> rfl

theorem stepSim_cash (m : ℕ) (st : SimState) (bar : SigBar) :
    (stepSim m st bar).cash = (tradeStep st bar.close bar.signal).cash := rfl

theorem stepSim_position (m : ℕ) (st : SimState) (bar : SigBar) :
    (stepSim m st bar).position = (tradeStep st bar.close bar.signal).position := rfl

theorem stepSim_lastSignal (m : ℕ) (st : SimState) (bar : SigBar) :
    (stepSim m st bar).lastSignal = (tradeStep st bar.close bar.signal).lastSignal := rfl

theorem stepSim_curve (m : ℕ) (st : SimState) (bar : SigBar) :
    (stepSim m st bar).curve = st.curve ++
      [{ date := bar.date,
         equity := (tradeStep st bar.close bar.signal).cash +
           (tradeStep st bar.close bar.signal).position * bar.close }] := by
  rw [← tradeStep_curve st bar.close bar.signal]
  rfl

theorem stepSim_curve_length (m : ℕ) (st : SimState) (bar : SigBar) :
    (stepSim m st bar).curve.length = st.curve.length + 1 := by
  rw [stepSim_curve]; simp

theorem stepSim_events_eq (m : ℕ) (st : SimState) (bar : SigBar) :
    (stepSim m st bar).events =
      if (st.curve.length + 1) % 25 = 0 then
        st.events ++ [(simPct m (st.curve.length + 1), "Simulating " ++ bar.date)]
      else st.events := by
  simp [stepSim, tradeStep_curve, tradeStep_events]

/-- A fold preserves any invariant preserved by its step (with access to the
membership of the element). -/
theorem foldl_preserves {α β : Type} (f : β → α → β) (P : β → Prop) :
    ∀ (l : List α) (init : β), P init → (∀ b, P b → ∀ a ∈ l, P (f b a)) →
      P (l.foldl f init) := by
  intro l
  induction l with
  | nil => exact fun init h _ => h
  | cons a t ih =>
    intro init h0 hstep
    exact ih (f init a) (hstep init h0 a (List.mem_cons_self _ _))
      (fun b hb a' ha' => hstep b hb a' (List.mem_cons_of_mem _ ha'))

/-- Every intermediate state of a fold (as listed by `scanl`) satisfies any
invariant preserved by the step. -/
theorem scanl_preserves {α β : Type} (f : β → α → β) (P : β → Prop) :
    ∀ (l : List α) (init : β), P init → (∀ b, P b → ∀ a ∈ l, P (f b a)) →
      ∀ s ∈ List.scanl f init l, P s := by
  intro l
  induction l with
  | nil =>
    intro init h0 _ s hs
    simp only [List.scanl_nil, List.mem_singleton] at hs
    exact hs ▸ h0
  | cons a t ih =>
    intro init h0 hstep s hs
    rw [List.scanl_cons] at hs
    rcases List.mem_append.mp hs with h | h
    · rw [List.mem_singleton.mp h]; exact h0
    · exact ih (f init a) (hstep init h0 a (List.mem_cons_self _ _))
        (fun b hb a' ha' => hstep b hb a' (List.mem_cons_of_mem _ ha')) s h

/-- The mutual-exclusion invariant: after any step, all cash or all position. -/
theorem stepSim_cashPos (m : ℕ) (st : SimState) (bar : SigBar)
    (h : st.cash = 0 ∨ st.position = 0) :
    (stepSim m st bar).cash = 0 ∨ (stepSim m st bar).position = 0 := by
  rw [stepSim_cash, stepSim_position]
  unfold tradeStep
  split_ifs <;> first | exact Or.inl rfl | exact Or.inr rfl | exact h

theorem simulateLoop_cashPos (bars : List SigBar) (strategy : StrategyConfig) :
    (simulateLoop bars strategy).cash = 0 ∨ (simulateLoop bars strategy).position = 0 :=
  foldl_preserves _ _ bars (initState strategy) (Or.inr rfl)
    (fun b hb a _ => stepSim_cashPos _ b a hb)

theorem setLastEquity_concat (c : List EquityPoint) (pt : EquityPoint) (v : ℚ) :
    setLastEquity (c ++ [pt]) v = c ++ [{ pt with equity := v }] := by
  simp [setLastEquity, List.getLast?_concat, List.dropLast_concat]

/-- If the data ends with bar `x`, the loop's curve ends with the equity point
recorded for `x`, whose equity is the final cash plus the final position marked
at `x`'s close. -/
theorem simulateLoop_concat (strategy : StrategyConfig) (xs : List SigBar) (x : SigBar)
    (m : ℕ) :
    List.foldl (stepSim m) (initState strategy) (xs ++ [x]) =
      stepSim m (List.foldl (stepSim m) (initState strategy) xs) x := by
  rw [List.foldl_append]
  rfl

/-- The final liquidation overwrite is a no-op: the value it writes equals the
mark-to-market equity already recorded for the final bar. -/
theorem simulate_fst (bars : List SigBar) (strategy : StrategyConfig) :
    (simulate bars strategy).1 = (simulateLoop bars strategy).curve := by
  by_cases hp : 0 < (simulateLoop bars strategy).position
  · have hbars : bars ≠ [] := by
      intro hnil
      rw [hnil] at hp
      exact absurd hp (lt_irrefl 0)
    obtain ⟨xs, x, hx⟩ : ∃ xs x, bars = xs ++ [x] := by
      rcases List.eq_nil_or_concat bars with h | ⟨L, b, h⟩
      · exact absurd h hbars
      · exact ⟨L, b, by simpa [List.concat_eq_append] using h⟩
    have hlast : bars.getLast? = some x := by rw [hx]; exact List.getLast?_concat _
    have hcash : (simulateLoop bars strategy).cash = 0 := by
      rcases simulateLoop_cashPos bars strategy with h | h
      · exact h
      · rw [h] at hp; exact absurd hp (lt_irrefl 0)
    have h1 : (simulate bars strategy).1 =
        setLastEquity (simulateLoop bars strategy).curve
          ((simulateLoop bars strategy).position * x.close) := by
      simp [simulate, hlast, hp]
    have h2 : (simulateLoop bars strategy).curve =
        (List.foldl (stepSim bars.length) (initState strategy) xs).curve ++
          [{ date := x.date,
             equity := (simulateLoop bars strategy).cash +
               (simulateLoop bars strategy).position * x.close }] := by
      conv_lhs => rw [simulateLoop, hx, simulateLoop_concat, stepSim_curve]
      rw [simulateLoop, hx, simulateLoop_concat]
      rw [stepSim_cash, stepSim_position]
    rw [h1, h2, setLastEquity_concat, hcash, zero_add]
  · rcases h : bars.getLast? with _ | lastBar
    · simp [simulate, h]
    · simp [simulate, h, hp]

theorem simulate_snd (bars : List SigBar) (strategy : StrategyConfig) :
    (simulate bars strategy).2 = (simulateLoop bars strategy).events := by
  rcases h : bars.getLast? with _ | lastBar
  · simp [simulate, h]
  · by_cases hp : 0 < (simulateLoop bars strategy).position <;> simp [simulate, h, hp]

/-- C9: cash and position are never simultaneously positive at any point of
the simulation, and consequently the end-of-run liquidation overwrite writes
the value already recorded for the final bar — the returned equity curve
equals the loop's curve unchanged. -/
theorem c9_cash_position_exclusive (bars : List SigBar) (strategy : StrategyConfig)
    (hclose : ∀ b ∈ bars, 0 < b.close) :
    (∀ st ∈ List.scanl (stepSim bars.length) (initState strategy) bars,
      ¬ (0 < st.cash ∧ 0 < st.position)) ∧
    (simulate bars strategy).1 = (simulateLoop bars strategy).curve := by
  constructor
  · intro st hst
    have h := scanl_preserves (stepSim bars.length)
      (fun s => s.cash = 0 ∨ s.position = 0) bars (initState strategy) (Or.inr rfl)
      (fun b hb a _ => stepSim_cashPos _ b a hb) st hst
    rcases h with h | h <;> rw [h] <;> simp
  · exact simulate_fst bars strategy

/-- A concrete strategy used by witnesses. -/
def wStrategy : StrategyConfig :=
  { ticker := "AAPL", start_date := "2020-01-01", end_date := "2024-01-01",
    short_window := 1, long_window := 2, initial_cash := 1000 }

/-- A concrete signal bar used by witnesses. -/
def wBar : SigBar := { date := "2020-01-02", close := 10, signal := 1 }

/-- C9 witness at one concrete bar. -/
theorem c9_cash_position_witness :
    (∀ b ∈ [wBar], 0 < b.close) ∧
    ¬ (0 < (initState wStrategy).cash ∧ 0 < (initState wStrategy).position) ∧
    (simulate [wBar] wStrategy).1 = (simulateLoop [wBar] wStrategy).curve := by
  refine ⟨by decide, ?_, (c9_cash_position_exclusive [wBar] wStrategy (by decide)).2⟩
  exact (c9_cash_position_exclusive [wBar] wStrategy (by decide)).1 (initState wStrategy)
    (by decide)

/-! ## Progress-trace lemmas -/

theorem simPct_mono (m : ℕ) {c c' : ℕ} (h : c ≤ c') : simPct m c ≤ simPct m c' := by
  unfold simPct
  rcases Nat.eq_zero_or_pos m with hm | hm
  · subst hm; simp
  · have hdiv : (c : ℚ) / m ≤ (c' : ℚ) / m := by gcongr
    exact min_le_min (by linarith) le_rfl

theorem simPct_bounds (m c : ℕ) : 6/10 ≤ simPct m c ∧ simPct m c ≤ 9/10 := by
  constructor
  · refine le_min ?_ (by norm_num)
    have : 0 ≤ (c : ℚ) / m := by positivity
    linarith
  · exact min_le_right _ _

/-- The invariant maintained by the simulation on its emitted events: their
progress values are sorted, and each one is the clamped percentage of some
prefix of the bars processed so far. -/
def EvGood (m : ℕ) (st : SimState) : Prop :=
  List.Pairwise (· ≤ ·) (st.events.map Prod.fst) ∧
  ∀ e ∈ st.events, ∃ c : ℕ, c ≤ st.curve.length ∧ e.1 = simPct m c

theorem stepSim_evGood (m : ℕ) (st : SimState) (bar : SigBar) (h : EvGood m st) :
    EvGood m (stepSim m st bar) := by
  obtain ⟨hP, hC⟩ := h
  have hlen := stepSim_curve_length m st bar
  by_cases hm : (st.curve.length + 1) % 25 = 0
  · have hev : (stepSim m st bar).events =
        st.events ++ [(simPct m (st.curve.length + 1), "Simulating " ++ bar.date)] := by
      rw [stepSim_events_eq, if_pos hm]
    constructor
    · rw [hev, List.map_append, List.pairwise_append]
      refine ⟨hP, by simp, ?_⟩
      intro a ha b hb
      simp only [List.map_cons, List.map_nil, List.mem_singleton] at hb
      obtain ⟨e, he, rfl⟩ := List.mem_map.mp ha
      obtain ⟨c, hc, hce⟩ := hC e he
      rw [hb, hce]
      exact simPct_mono m (hc.trans (Nat.le_succ _))
    · intro e he
      rw [hev] at he
      rcases List.mem_append.mp he with h | h
      · obtain ⟨c, hc, hce⟩ := hC e h
        exact ⟨c, by omega, hce⟩
      · rw [List.mem_singleton.mp h]
        exact ⟨st.curve.length + 1, by omega, rfl⟩
  · have hev : (stepSim m st bar).events = st.events := by
      rw [stepSim_events_eq, if_neg hm]
    refine ⟨by rw [hev]; exact hP, ?_⟩
    intro e he
    rw [hev] at he
    obtain ⟨c, hc, hce⟩ := hC e he
    exact ⟨c, by omega, hce⟩

theorem simulateLoop_evGood (bars : List SigBar) (strategy : StrategyConfig) :
    EvGood bars.length (simulateLoop bars strategy) :=
  foldl_preserves _ _ bars (initState strategy)
    ⟨by simp [initState], by simp [initState]⟩
    (fun b hb a _ => stepSim_evGood _ b a hb)

/-! ## Positivity of the equity curve -/

/-- With positive prices and a positive starting cash, the state is always
either all-cash-positive or all-position-positive, and each recorded equity is
positive. -/
def PosGood (st : SimState) : Prop :=
  ((0 < st.cash ∧ st.position = 0) ∨ (st.cash = 0 ∧ 0 < st.position)) ∧
  ∀ pt ∈ st.curve, 0 < pt.equity

theorem tradeStep_posPart (st : SimState) (price : ℚ) (signal : ℤ) (hprice : 0 < price)
    (h : (0 < st.cash ∧ st.position = 0) ∨ (st.cash = 0 ∧ 0 < st.position)) :
    ((0 < (tradeStep st price signal).cash ∧ (tradeStep st price signal).position = 0) ∨
      ((tradeStep st price signal).cash = 0 ∧ 0 < (tradeStep st price signal).position)) ∧
    0 < (tradeStep st price signal).cash + (tradeStep st price signal).position * price := by
  unfold tradeStep
  split_ifs with h1 h2 h3
  · have hcash : 0 < st.cash := by
      rcases h with ⟨hc, _⟩ | ⟨_, hp⟩
      · exact hc
      · rw [h2.2] at hp; exact absurd hp (lt_irrefl 0)
    have hpos : 0 < st.cash / price := div_pos hcash hprice
    exact ⟨Or.inr ⟨rfl, hpos⟩, by simpa using mul_pos hpos hprice⟩
  · have hps : 0 < st.position * price := mul_pos h3.2 hprice
    exact ⟨Or.inl ⟨hps, rfl⟩, by simpa using hps⟩
  · refine ⟨h, ?_⟩
    rcases h with ⟨hc, hp⟩ | ⟨hc, hp⟩
    · show 0 < st.cash + st.position * price
      rw [hp]; simpa using hc
    · show 0 < st.cash + st.position * price
      rw [hc]; simpa using mul_pos hp hprice
  · refine ⟨h, ?_⟩
    rcases h with ⟨hc, hp⟩ | ⟨hc, hp⟩
    · show 0 < st.cash + st.position * price
      rw [hp]; simpa using hc
    · show 0 < st.cash + st.position * price
      rw [hc]; simpa using mul_pos hp hprice

theorem stepSim_posGood (m : ℕ) (st : SimState) (bar : SigBar) (hprice : 0 < bar.close)
    (h : PosGood st) : PosGood (stepSim m st bar) := by
  obtain ⟨hstate, hcurve⟩ := h
  obtain ⟨hstate', hequity⟩ := tradeStep_posPart st bar.close bar.signal hprice hstate
  refine ⟨hstate', ?_⟩
  intro pt hpt
  rw [stepSim_curve] at hpt
  rcases List.mem_append.mp hpt with hin | hin
  · exact hcurve pt hin
  · rw [List.mem_singleton.mp hin]
    exact hequity

theorem simulateLoop_posGood (bars : List SigBar) (strategy : StrategyConfig)
    (hclose : ∀ b ∈ bars, 0 < b.close) (hcash : 0 < strategy.initial_cash) :
    PosGood (simulateLoop bars strategy) :=
  foldl_preserves _ _ bars (initState strategy)
    ⟨Or.inl ⟨hcash, rfl⟩, by simp [initState]⟩
    (fun b hb a ha => stepSim_posGood _ b a (hclose a ha) hb)

/-! ## Indicators preserve the closes -/

theorem mem_of_mem_enumFrom {α : Type} :
    ∀ (l : List α) (n : ℕ) (p : ℕ × α), p ∈ l.enumFrom n → p.2 ∈ l := by
  intro l
  induction l with
  | nil => intro n p hp; simp [List.enumFrom] at hp
  | cons a t ih =>
    intro n p hp
    rw [List.enumFrom] at hp
    rcases List.mem_cons.mp hp with rfl | h
    · exact List.mem_cons_self _ _
    · exact List.mem_cons_of_mem _ (ih (n + 1) p h)

theorem applyIndicators_close_pos (data : List PriceBar) (s l : ℕ)
    (h : ∀ b ∈ data, 0 < b.close) :
    ∀ sb ∈ applyIndicators data s l, 0 < sb.close := by
  intro sb hsb
  unfold applyIndicators at hsb
  obtain ⟨p, hp, hmk⟩ := List.mem_filterMap.mp hsb
  have hmem : p.2 ∈ data := mem_of_mem_enumFrom data 0 p hp
  rcases h1 : rollingMean s (data.map PriceBar.close) p.1 with _ | ss <;>
    rcases h2 : rollingMean l (data.map PriceBar.close) p.1 with _ | sl <;>
    rw [h1, h2] at hmk <;> simp at hmk
  rw [← hmk]
  exact h p.2 hmem

/-! ## Fetch events and the full progress trace -/

/-- A successful fetch emits either no progress event (live data) or exactly
the single `0.2` fallback event. -/
theorem fetch_ok_events {allowFallback : Bool} {ticker : String} {dl : DownloadResult}
    {sampleDates : List String} {drifts : List ℚ} {data : List PriceBar} {fev : List Event}
    (h : fetch allowFallback ticker dl sampleDates drifts = Except.ok (data, fev)) :
    fev = [] ∨ ∃ r, fev = [((1:ℚ)/5, "Using sample data (" ++ r ++ ")")] := by
  cases dl with
  | exn msg =>
    cases allowFallback with
    | false => simp [fetch] at h
    | true =>
      simp [fetch, sampleData] at h
      refine Or.inr ⟨msg, ?_⟩
      rw [← h.2]
      norm_num
  | ok d =>
    cases allowFallback with
    | false =>
      by_cases hd : d.isEmpty
      · simp [fetch, hd] at h
      · simp [fetch, hd] at h
        exact Or.inl h.2
    | true =>
      by_cases hd : d.isEmpty
      · simp [fetch, hd, sampleData] at h
        refine Or.inr ⟨"empty response", ?_⟩
        rw [← h.2]
        have hstr : ("Using sample data (" ++ "empty response" ++ ")" : String)
            = "Using sample data (empty response)" := rfl
        rw [hstr]
        norm_num
      · simp [fetch, hd] at h
        exact Or.inl h.2

/-- Sortedness of the full progress trace of a completed run. -/
theorem trace_pairwise (fev sev : List Event)
    (hfev : fev = [] ∨ ∃ r, fev = [((1:ℚ)/5, "Using sample data (" ++ r ++ ")")])
    (hP : List.Pairwise (· ≤ ·) (sev.map Prod.fst))
    (hB : ∀ e ∈ sev, 6/10 ≤ e.1 ∧ e.1 ≤ 9/10) :
    List.Pairwise (· ≤ ·)
      ((((1:ℚ)/10, "Parsing strategy") :: fev ++
        ((4:ℚ)/10, "Calculating indicators") :: ((6:ℚ)/10, "Simulating trades") :: sev ++
        [((9:ℚ)/10, "Calculating summary statistics"), ((1:ℚ), "Completed")]).map
        Prod.fst) := by
  have hB' : ∀ q ∈ sev.map Prod.fst, 6/10 ≤ q ∧ q ≤ 9/10 := by
    intro q hq
    obtain ⟨e, he, rfl⟩ := List.mem_map.mp hq
    exact hB e he
  have main : ∀ pre : List ℚ, List.Pairwise (· ≤ ·) pre → (∀ a ∈ pre, a ≤ 6/10) →
      List.Pairwise (· ≤ ·) (pre ++ (sev.map Prod.fst ++ [(9:ℚ)/10, 1])) := by
    intro pre hpre hpre6
    rw [List.pairwise_append]
    refine ⟨hpre, ?_, ?_⟩
    · rw [List.pairwise_append]
      refine ⟨hP, by norm_num, ?_⟩
      intro a ha b hb
      simp only [List.mem_cons, List.mem_singleton, List.not_mem_nil, or_false] at hb
      rcases hb with rfl | rfl
      · exact (hB' a ha).2
      · linarith [(hB' a ha).2]
    · intro a ha b hb
      have ha' : a ≤ 6/10 := hpre6 a ha
      have hb' : 6/10 ≤ b := by
        rcases List.mem_append.mp hb with hb | hb
        · exact (hB' b hb).1
        · simp only [List.mem_cons, List.mem_singleton, List.not_mem_nil, or_false] at hb
          rcases hb with rfl | rfl <;> norm_num
      linarith
  rcases hfev with rfl | ⟨r, rfl⟩
  · have := main [(1:ℚ)/10, 4/10, 6/10] (by norm_num) (by
      intro a ha
      simp only [List.mem_cons, List.mem_singleton, List.not_mem_nil, or_false] at ha
      rcases ha with rfl | rfl | rfl <;> norm_num)
    simpa [List.append_assoc] using this
  · have := main [(1:ℚ)/10, 1/5, 4/10, 6/10] (by norm_num) (by
      intro a ha
      simp only [List.mem_cons, List.mem_singleton, List.not_mem_nil, or_false] at ha
      rcases ha with rfl | rfl | rfl | rfl <;> norm_num)
    simpa [List.append_assoc] using this

/-- C3: every completed run (successful fetch, positive prices, positive
starting cash, positive windows) calls the progress callback with the exact
stage sequence `0.1`, (optional `0.2` fallback event), `0.4`, `0.6`, the
intermediate simulation checkpoints, `0.9`, `1.0`; the whole sequence is
monotonically non-decreasing and every simulation checkpoint lies in
`[0.6, 0.9]`. -/
theorem c3_run_progress (strategy : StrategyConfig) (allowFallback : Bool) (ticker : String)
    (dl : DownloadResult) (sampleDates : List String) (drifts : List ℚ)
    (data : List PriceBar) (fetchEvents : List Event) (policyId : Option String)
    (hfetch : fetch allowFallback ticker dl sampleDates drifts = Except.ok (data, fetchEvents))
    (hclose : ∀ b ∈ data, 0 < b.close)
    (hcash : 0 < strategy.initial_cash)
    (hsw : 0 < strategy.short_window) (hlw : 0 < strategy.long_window) :
    ∃ simEvents res,
      BacktestRunner.run (fetch allowFallback ticker dl sampleDates drifts) strategy policyId
        = (((1:ℚ)/10, "Parsing strategy") :: fetchEvents ++
            ((4:ℚ)/10, "Calculating indicators") :: ((6:ℚ)/10, "Simulating trades") ::
            simEvents ++
            [((9:ℚ)/10, "Calculating summary statistics"), ((1:ℚ), "Completed")],
           Except.ok res) ∧
      List.Pairwise (· ≤ ·)
        ((((1:ℚ)/10, "Parsing strategy") :: fetchEvents ++
          ((4:ℚ)/10, "Calculating indicators") :: ((6:ℚ)/10, "Simulating trades") ::
          simEvents ++
          [((9:ℚ)/10, "Calculating summary statistics"), ((1:ℚ), "Completed")]).map
          Prod.fst) ∧
      ∀ e ∈ simEvents, 6/10 ≤ e.1 ∧ e.1 ≤ 9/10 := by
  have hbclose : ∀ b ∈ applyIndicators data strategy.short_window strategy.long_window,
      0 < b.close :=
    applyIndicators_close_pos data _ _ hclose
  have hpg := simulateLoop_posGood
    (applyIndicators data strategy.short_window strategy.long_window) strategy hbclose hcash
  have hcurve := hpg.2
  obtain ⟨s, hs, _, _⟩ := summarize_ok_bounds
    (simulateLoop (applyIndicators data strategy.short_window strategy.long_window)
      strategy).curve
    (fun pt hpt => (hcurve pt hpt).le)
    (fun pt₀ h0 => hcurve pt₀ (List.mem_of_mem_head? h0))
  have hev := simulateLoop_evGood
    (applyIndicators data strategy.short_window strategy.long_window) strategy
  have hsim : simulate (applyIndicators data strategy.short_window strategy.long_window)
      strategy =
      ((simulateLoop (applyIndicators data strategy.short_window strategy.long_window)
          strategy).curve,
       (simulateLoop (applyIndicators data strategy.short_window strategy.long_window)
          strategy).events) := by
    rw [← simulate_fst, ← simulate_snd]
  have hBnd : ∀ e ∈ (simulateLoop
      (applyIndicators data strategy.short_window strategy.long_window) strategy).events,
      6/10 ≤ e.1 ∧ e.1 ≤ 9/10 := by
    intro e he
    obtain ⟨c, _, hce⟩ := hev.2 e he
    rw [hce]
    exact simPct_bounds _ c
  refine ⟨(simulateLoop (applyIndicators data strategy.short_window strategy.long_window)
      strategy).events,
    { policy_id := policyId, summary := s,
      equity_curve := (simulateLoop
        (applyIndicators data strategy.short_window strategy.long_window) strategy).curve },
    ?_, ?_, hBnd⟩
  · rw [hfetch]
    simp only [BacktestRunner.run, hsim, hs]
    simp [List.append_assoc]
  · exact trace_pairwise fetchEvents _ (fetch_ok_events hfetch) hev.1 hBnd

/-- Concrete price data used by the C3 witness. -/
def wData : List PriceBar :=
  [{ date := "2020-01-02", close := 10 }, { date := "2020-01-03", close := 11 }]

/-- C3 witness at concrete data and strategy. -/
theorem c3_run_progress_witness :
    fetch true "AAPL" (DownloadResult.ok wData) [] [] = Except.ok (wData, []) ∧
    (∀ b ∈ wData, 0 < b.close) ∧ 0 < wStrategy.initial_cash ∧
    0 < wStrategy.short_window ∧ 0 < wStrategy.long_window ∧
    (∃ simEvents res,
      BacktestRunner.run (fetch true "AAPL" (DownloadResult.ok wData) [] []) wStrategy none
        = (((1:ℚ)/10, "Parsing strategy") :: [] ++
            ((4:ℚ)/10, "Calculating indicators") :: ((6:ℚ)/10, "Simulating trades") ::
            simEvents ++
            [((9:ℚ)/10, "Calculating summary statistics"), ((1:ℚ), "Completed")],
           Except.ok res) ∧
      List.Pairwise (· ≤ ·)
        ((((1:ℚ)/10, "Parsing strategy") :: [] ++
          ((4:ℚ)/10, "Calculating indicators") :: ((6:ℚ)/10, "Simulating trades") ::
          simEvents ++
          [((9:ℚ)/10, "Calculating summary statistics"), ((1:ℚ), "Completed")]).map
          Prod.fst) ∧
      ∀ e ∈ simEvents, 6/10 ≤ e.1 ∧ e.1 ≤ 9/10) :=
  ⟨rfl, by decide, by decide, by decide, by decide,
    c3_run_progress wStrategy true "AAPL" (DownloadResult.ok wData) [] [] wData [] none
      rfl (by decide) (by decide) (by decide) (by decide)⟩

end DeepQuant
